import Mathlib

/-!
Verification of the colorjson renderer (colorjson.go) against its
natural-language specification.

Modelling conventions:
- Go strings and all emitted output are modelled as byte lists (`List Nat`,
  each entry a byte value), since the source measures and slices strings by
  bytes (`len`, `str[0:n]`).
- The `bufio.Writer` sink is modelled as a write-through sink with a sticky
  error (`Writer`): each `WriteString`/`WriteRune` call either appends all
  its bytes or fails (appending nothing) according to a failure schedule
  `failAt` (the index of the write call at which the sink fails); after a
  failure the error is sticky, as in `bufio.Writer`.
- `color.PrinterFace` style handles are opaque text transformers, modelled
  as `Option (List Nat → List Nat)`; `none` models a nil handle.
- Go panics (reflect.Value.Type on the zero Value, method call on a nil
  interface) are modelled by the `RErr.crash` outcome, which propagates
  without executing any further writes, mirroring panic unwinding.
- `reflect` indirection: the source unwraps one `Pointer` level and one
  `Interface` level before dispatch.  Interface wrapping is modelled as
  transparent (container elements hold their dynamic values directly, with
  the nil interface represented by `GoValue.nilV`); explicit pointers are
  the `GoValue.ptr` constructor.
- The `Indent` and `StringMaxLength` fields are Go `int`s; they are
  modelled as `Nat` (negative settings make `strings.Repeat` or the slice
  `str[0:n]` panic in Go and are outside every claim).
-/

namespace ColorJson

/-- UTF-8 encoding of a Unicode code point, used to spell byte strings. -/
def utf8Enc (c : Nat) : List Nat :=
  if c < 128 then [c]
  else if c < 2048 then [192 + c / 64, 128 + c % 64]
  else if c < 65536 then [224 + c / 4096, 128 + c / 64 % 64, 128 + c % 64]
  else [240 + c / 262144, 128 + c / 4096 % 64, 128 + c / 64 % 64, 128 + c % 64]

/-- Byte list of a Lean string literal (UTF-8 bytes, as in a Go string). -/
def gs (s : String) : List Nat := (s.toList.map (fun c => utf8Enc c.toNat)).flatten

/-- Decimal digits of a natural number, most significant first, as ASCII
bytes; fuel-structured for kernel reducibility (fuel = the number itself
suffices). -/
def natDigitsAux : Nat → Nat → List Nat
  | 0, _ => []
  | _, 0 => []
  | fuel + 1, n => natDigitsAux fuel (n / 10) ++ [48 + n % 10]

/-- ASCII decimal representation of a natural number. -/
def natDigits (n : Nat) : List Nat := if n = 0 then [48] else natDigitsAux n n

/-- strconv.FormatInt(i, 10): ASCII decimal with a leading minus sign for
negative values. -/
def formatInt (i : Int) : List Nat :=
  if i < 0 then 45 :: natDigits i.natAbs else natDigits i.natAbs

/-- Lowercase hexadecimal digit, as in encoding/json's hex table. -/
def hexDigit (n : Nat) : Nat := if n < 10 then 48 + n else 87 + n

/-- The six-byte escape \uXXXX used by encoding/json. -/
def uEsc (c : Nat) : List Nat :=
  [92, 117, hexDigit (c / 4096 % 16), hexDigit (c / 256 % 16),
   hexDigit (c / 16 % 16), hexDigit (c % 16)]

/-- encoding/json htmlSafeSet restricted to ASCII: bytes that are copied
verbatim inside a JSON string (≥ 0x20, not quote, backslash, or the
HTML-escaped angle brackets and ampersand). -/
def safeAscii (b : Nat) : Bool :=
  32 ≤ b && b ≠ 34 && b ≠ 92 && b ≠ 60 && b ≠ 62 && b ≠ 38

/-- Escape sequence emitted by encoding/json for an unsafe ASCII byte. -/
def escByte (b : Nat) : List Nat :=
  if b = 34 || b = 92 then [92, b]
  else if b = 10 then [92, 110]
  else if b = 13 then [92, 114]
  else if b = 9 then [92, 116]
  else uEsc b

/-- Whether a byte is a UTF-8 continuation byte. -/
def contB (b : Nat) : Bool := 128 ≤ b && b < 192

/-- unicode/utf8.DecodeRune on a byte list: returns (rune, size), with
(0xFFFD, 1) for an invalid encoding, mirroring the Go rules (rejecting
overlong forms, surrogates and values above U+10FFFF). -/
def decodeRune : List Nat → Nat × Nat
  | [] => (65533, 0)
  | b0 :: rest =>
    if b0 < 128 then (b0, 1)
    else if b0 < 194 then (65533, 1)
    else if b0 < 224 then
      match rest with
      | b1 :: _ => if contB b1 then ((b0 - 192) * 64 + (b1 - 128), 2) else (65533, 1)
      | [] => (65533, 1)
    else if b0 < 240 then
      match rest with
      | b1 :: b2 :: _ =>
        let lo := if b0 = 224 then 160 else 128
        let hi := if b0 = 237 then 160 else 192
        if lo ≤ b1 && b1 < hi && contB b2 then
          ((b0 - 224) * 4096 + (b1 - 128) * 64 + (b2 - 128), 3)
        else (65533, 1)
      | _ => (65533, 1)
    else if b0 < 245 then
      match rest with
      | b1 :: b2 :: b3 :: _ =>
        let lo := if b0 = 240 then 144 else 128
        let hi := if b0 = 244 then 144 else 192
        if lo ≤ b1 && b1 < hi && contB b2 && contB b3 then
          ((b0 - 240) * 262144 + (b1 - 128) * 4096 + (b2 - 128) * 64 + (b3 - 128), 4)
        else (65533, 1)
      | _ => (65533, 1)
    else (65533, 1)

/-- Body of encoding/json's string encoder (escapeHTML = true), fuel-structured
on the remaining byte count for kernel reducibility. -/
def jqAux : Nat → List Nat → List Nat
  | 0, _ => []
  | _, [] => []
  | fuel + 1, b :: rest =>
    if b < 128 then
      (if safeAscii b then [b] else escByte b) ++ jqAux fuel rest
    else
      match decodeRune (b :: rest) with
      | (c, size) =>
        if c = 65533 && size = 1 then gs "\\ufffd" ++ jqAux fuel rest
        else if c = 8232 || c = 8233 then uEsc c ++ jqAux fuel (rest.drop (size - 1))
        else (b :: rest).take size ++ jqAux fuel (rest.drop (size - 1))

/-- json.Marshal of a string: the escaped text surrounded by double quotes. -/
def jsonQuote (s : List Nat) : List Nat := [34] ++ jqAux s.length s ++ [34]

/-- The output sink: bytes accepted so far, the number of write calls made,
the call index at which the sink fails (none = never), and the sticky error
flag of the bufio.Writer. -/
structure Writer where
  out : List Nat
  calls : Nat
  failAt : Option Nat
  err : Bool
deriving DecidableEq

/-- Outcome of a marshal routine: clean return, write error return, or a
propagating Go panic. -/
inductive RErr where
  | ok
  | werr
  | crash
deriving DecidableEq

/-- Result of a marshal routine: the returned byte count, the sink state,
and the outcome. -/
structure MRes where
  n : Nat
  w : Writer
  e : RErr
deriving DecidableEq

/-- One WriteString/WriteRune call against the sink: with a sticky error it
writes nothing and returns the error; at the scheduled failure index a
non-empty write fails (writing nothing, setting the sticky error);
otherwise all bytes are appended. -/
def wWrite (w : Writer) (s : List Nat) : MRes :=
  if w.err then ⟨0, w, .werr⟩
  else if s ≠ [] ∧ w.failAt = some w.calls then
    ⟨0, ⟨w.out, w.calls + 1, w.failAt, true⟩, .werr⟩
  else ⟨s.length, ⟨w.out ++ s, w.calls + 1, w.failAt, false⟩, .ok⟩

/-- A style handle (color.PrinterFace): an opaque text transformer, none
modelling a nil handle. -/
abbrev Handle := Option (List Nat → List Nat)

/-- The Formatter configuration (colorjson.go:27-39); the bufio buffer is
threaded separately as `Writer`. -/
structure Formatter where
  BackColor : Handle
  KeyColor : Handle
  StringColor : Handle
  BoolColor : Handle
  NumberColor : Handle
  NullColor : Handle
  StringMaxLength : Nat
  Indent : Nat
  DisabledColor : Bool
  RawStrings : Bool

/-- sprintColor (colorjson.go:69-74): plain text when color is disabled or
the handle is nil, otherwise the handle applied. -/
def sprintColor (f : Formatter) (c : Handle) (s : List Nat) : List Nat :=
  if f.DisabledColor then s
  else
    match c with
    | none => s
    | some h => h s

/-- The object separator bytes (colorjson.go:80-86): newline when indenting,
otherwise a single space. -/
def objSepBytes (f : Formatter) : List Nat := if f.Indent ≠ 0 then [10] else [32]

/-- The indentation bytes for a depth (colorjson.go:76-78). -/
def indentBytes (f : Formatter) (depth : Nat) : List Nat :=
  List.replicate (f.Indent * depth) 32

/-- writeObjSep (colorjson.go:80-86). -/
def writeObjSep (f : Formatter) (w : Writer) : MRes := wWrite w (objSepBytes f)

/-- writeIndent (colorjson.go:76-78). -/
def writeIndent (f : Formatter) (w : Writer) (depth : Nat) : MRes :=
  wWrite w (indentBytes f depth)

mutual
/-- The dynamically-typed value domain seen through reflect: strings,
signed integers, unsigned integers, booleans, the invalid (nil) value,
maps (entries listed in the map's iteration order), slices, structs
(fields listed in declaration order), and pointers.  The Float kinds of
the source's numeric case are not modelled (no claim concerns them). -/
inductive GoValue where
  | str (s : List Nat)
  | int (i : Int)
  | uint (n : Nat)
  | bool (b : Bool)
  | nilV
  | map (l : GoEntries)
  | slice (l : GoList)
  | struct (l : GoEntries)
  | ptr (p : GoPtr)
/-- A list of slice elements. -/
inductive GoList where
  | nil
  | cons (v : GoValue) (rest : GoList)
/-- A list of key/value entries of a map (iteration order) or struct
(declaration order). -/
inductive GoEntries where
  | nil
  | cons (k : List Nat) (v : GoValue) (rest : GoEntries)
/-- A pointer: nil or pointing at a value. -/
inductive GoPtr where
  | null
  | val (v : GoValue)
end

/-- Whether an entry list is empty (the remaining == 0 check of
colorjson.go:191/110). -/
def entriesEmpty : GoEntries → Bool
  | .nil => true
  | .cons _ _ _ => false

/-- Whether an element list is empty (the a.Len() == 0 check of
colorjson.go:268). -/
def listEmpty : GoList → Bool
  | .nil => true
  | .cons _ _ => false

/-- Whether entries remain after the current one (the remaining != 0 check
of colorjson.go:232-233/153-154). -/
def hasMoreE : GoEntries → Bool
  | .nil => false
  | .cons _ _ _ => true

/-- Whether elements remain after the current one (the i < a.Len()-1 check
of colorjson.go:303). -/
def hasMoreL : GoList → Bool
  | .nil => false
  | .cons _ _ => true

/-- Sequencing of one write result, mirroring the Go pattern
n, err = ...; if err != nil { return en, err }; continue with n: on success
the continuation receives the count and sink; on error the given count en
is returned with the error. -/
def step (r : MRes) (en : Nat) (k : Nat → Writer → MRes) : MRes :=
  match r.e with
  | .ok => k r.n r.w
  | e => ⟨en, r.w, e⟩

/-- Sequencing of a recursive render result: clean returns continue; a
write error returns the given accumulated count; a panic propagates
(no return value is produced in Go, the count is pinned to 0 here). -/
def stepV (r : MRes) (en : Nat) (k : Nat → Writer → MRes) : MRes :=
  match r.e with
  | .ok => k r.n r.w
  | .werr => ⟨en, r.w, .werr⟩
  | .crash => ⟨0, r.w, .crash⟩

/-- escText: the first step of marshalString (colorjson.go:372-375) -
JSON-escape and quote unless RawStrings is set. -/
def escText (f : Formatter) (s : List Nat) : List Nat :=
  if f.RawStrings then s else jsonQuote s

/-- truncText: the truncation step of marshalString (colorjson.go:377-379) -
when a threshold is set and the text length reaches it, cut to the
threshold and append the ellipsis marker. -/
def truncText (f : Formatter) (s : List Nat) : List Nat :=
  if f.StringMaxLength ≠ 0 ∧ f.StringMaxLength ≤ s.length then
    s.take f.StringMaxLength ++ gs "..."
  else s

/-- marshalString (colorjson.go:371-382). -/
def marshalString (f : Formatter) (s : List Nat) (w : Writer) : MRes :=
  wWrite w (sprintColor f f.StringColor (truncText f (escText f s)))

mutual
/-- marshalValue (colorjson.go:336-368): one pointer unwrap (337-339; Elem
of a nil pointer is the invalid zero Value, on which val.Type() at line
345 panics - modelled by crash), then the type switch (345-368), with the
bodies of marshalMap (188-265), marshalStruct (106-186) and marshalArray
(267-334) inlined at their dispatch sites; marshalMap and marshalStruct
are line-for-line identical up to the reflection accessors, so the map
and struct cases carry the same body over their entry lists.  The
reflect.Invalid case of the source (line 362) is unreachable: val.Type()
panics on the invalid value first.  Kinds with no case (unsigned
integers) fall through to return 0, nil (line 368).  Note the early
return at the object-separator write of the map/struct body
(colorjson.go:203-206 / 122-125) returns the failed write's own count n,
not the accumulated count wr, while the array body's corresponding
return (281-284) correctly returns the accumulated count. -/
def marshalValue (f : Formatter) (v : GoValue) (w : Writer) (depth : Nat) : MRes :=
  match v with
  | .ptr .null => ⟨0, w, .crash⟩
  | .ptr (.val u) => marshalDispatch f u w depth
  | .map l =>
    if entriesEmpty l then wWrite w (sprintColor f f.BackColor (gs "\x7b\x7d"))
    else
      step (wWrite w (sprintColor f f.BackColor [123])) 0 (fun n1 w1 =>
        let r2 := writeObjSep f w1
        step r2 r2.n (fun n2 w2 => objLoop f l w2 depth (n1 + n2)))
  | .slice l =>
    if listEmpty l then wWrite w (sprintColor f f.BackColor (gs "[]"))
    else
      step (wWrite w (sprintColor f f.BackColor [91])) 0 (fun n1 w1 =>
        step (writeObjSep f w1) n1 (fun n2 w2 => arrLoop f l w2 depth (n1 + n2)))
  | .str s => marshalString f s w
  | .int i => wWrite w (sprintColor f f.NumberColor (formatInt i))
  | .bool b => wWrite w (sprintColor f f.BoolColor (gs (if b then "true" else "false")))
  | .nilV => ⟨0, w, .crash⟩
  | .struct l =>
    if entriesEmpty l then wWrite w (sprintColor f f.BackColor (gs "\x7b\x7d"))
    else
      step (wWrite w (sprintColor f f.BackColor [123])) 0 (fun n1 w1 =>
        let r2 := writeObjSep f w1
        step r2 r2.n (fun n2 w2 => objLoop f l w2 depth (n1 + n2)))
  | .uint _ => ⟨0, w, .ok⟩

/-- The same type switch for a value already exposed by the one pointer
unwrap: identical to marshalValue except that a remaining pointer kind is
not unwrapped again - it matches no switch case and falls through to
return 0, nil (colorjson.go:368). -/
def marshalDispatch (f : Formatter) (v : GoValue) (w : Writer) (depth : Nat) : MRes :=
  match v with
  | .ptr _ => ⟨0, w, .ok⟩
  | .map l =>
    if entriesEmpty l then wWrite w (sprintColor f f.BackColor (gs "\x7b\x7d"))
    else
      step (wWrite w (sprintColor f f.BackColor [123])) 0 (fun n1 w1 =>
        let r2 := writeObjSep f w1
        step r2 r2.n (fun n2 w2 => objLoop f l w2 depth (n1 + n2)))
  | .slice l =>
    if listEmpty l then wWrite w (sprintColor f f.BackColor (gs "[]"))
    else
      step (wWrite w (sprintColor f f.BackColor [91])) 0 (fun n1 w1 =>
        step (writeObjSep f w1) n1 (fun n2 w2 => arrLoop f l w2 depth (n1 + n2)))
  | .str s => marshalString f s w
  | .int i => wWrite w (sprintColor f f.NumberColor (formatInt i))
  | .bool b => wWrite w (sprintColor f f.BoolColor (gs (if b then "true" else "false")))
  | .nilV => ⟨0, w, .crash⟩
  | .struct l =>
    if entriesEmpty l then wWrite w (sprintColor f f.BackColor (gs "\x7b\x7d"))
    else
      step (wWrite w (sprintColor f f.BackColor [123])) 0 (fun n1 w1 =>
        let r2 := writeObjSep f w1
        step r2 r2.n (fun n2 w2 => objLoop f l w2 depth (n1 + n2)))
  | .uint _ => ⟨0, w, .ok⟩

/-- The entry loop of marshalMap/marshalStruct (colorjson.go:210-248 /
129-169): per entry indentation, key, recursive value, comma when entries
remain, object separator; the nil case is the closing indent-and-brace
after the loop (250-264 / 171-185).  The key is written through
f.KeyColor.Sprintf directly (colorjson.go:218 / 139), bypassing
sprintColor - so it is styled even with DisabledColor set, and a nil
KeyColor is a nil-interface method call (a panic, modelled by crash). -/
def objLoop (f : Formatter) (l : GoEntries) (w : Writer) (depth : Nat) (wr : Nat) : MRes :=
  match l with
  | .nil =>
    step (writeIndent f w depth) wr (fun n1 w1 =>
      step (wWrite w1 (sprintColor f f.BackColor [125])) (wr + n1) (fun n2 w2 =>
        ⟨wr + n1 + n2, w2, .ok⟩))
  | .cons k v rest =>
    step (writeIndent f w (depth + 1)) wr (fun n1 w1 =>
      match f.KeyColor with
      | none => ⟨0, w1, .crash⟩
      | some kc =>
        step (wWrite w1 (kc ([34] ++ k ++ [34, 58, 32]))) (wr + n1) (fun n2 w2 =>
          stepV (marshalValue f v w2 (depth + 1)) (wr + n1 + n2) (fun n3 w3 =>
            if hasMoreE rest then
              step (wWrite w3 (sprintColor f f.BackColor [44])) (wr + n1 + n2 + n3)
                (fun n4 w4 =>
                step (writeObjSep f w4) (wr + n1 + n2 + n3 + n4) (fun n5 w5 =>
                  objLoop f rest w5 depth (wr + n1 + n2 + n3 + n4 + n5)))
            else
              step (writeObjSep f w3) (wr + n1 + n2 + n3) (fun n5 w5 =>
                objLoop f rest w5 depth (wr + n1 + n2 + n3 + n5)))))

/-- The element loop of marshalArray (colorjson.go:288-318): per element
indentation at depth (colorjson.go:289, not depth+1), recursive value at
depth+1 (line 296), comma when elements remain, object separator; the nil
case is the closing indent-and-bracket after the loop (319-331). -/
def arrLoop (f : Formatter) (l : GoList) (w : Writer) (depth : Nat) (wr : Nat) : MRes :=
  match l with
  | .nil =>
    step (writeIndent f w depth) wr (fun n1 w1 =>
      step (wWrite w1 (sprintColor f f.BackColor [93])) (wr + n1) (fun n2 w2 =>
        ⟨wr + n1 + n2, w2, .ok⟩))
  | .cons v rest =>
    step (writeIndent f w depth) wr (fun n1 w1 =>
      stepV (marshalValue f v w1 (depth + 1)) (wr + n1) (fun n2 w2 =>
        if hasMoreL rest then
          step (wWrite w2 (sprintColor f f.BackColor [44])) (wr + n1 + n2) (fun n3 w3 =>
            step (writeObjSep f w3) (wr + n1 + n2 + n3) (fun n5 w5 =>
              arrLoop f rest w5 depth (wr + n1 + n2 + n3 + n5)))
        else
          step (writeObjSep f w2) (wr + n1 + n2) (fun n5 w5 =>
            arrLoop f rest w5 depth (wr + n1 + n2 + n5))))
end

/-- marshalMap (colorjson.go:188-265): the entry list is the map's
iteration order (reflect MapKeys order, which is not sorted).  Its body is
the map case of the dispatcher switch. -/
def marshalMap (f : Formatter) (l : GoEntries) (w : Writer) (depth : Nat) : MRes :=
  marshalValue f (.map l) w depth

/-- marshalStruct (colorjson.go:106-186): the entry list is the struct's
field declaration order.  Its body is the struct case of the dispatcher
switch. -/
def marshalStruct (f : Formatter) (l : GoEntries) (w : Writer) (depth : Nat) : MRes :=
  marshalValue f (.struct l) w depth

/-- marshalArray (colorjson.go:267-334): its body is the slice case of the
dispatcher switch. -/
def marshalArray (f : Formatter) (l : GoList) (w : Writer) (depth : Nat) : MRes :=
  marshalValue f (.slice l) w depth

/-- bufio Flush in the write-through model: reports the sticky error. -/
def flushBuf (w : Writer) : Bool := w.err

/-- Encode (colorjson.go:88-104): a top-level string is written through
verbatim (the WriteString error is discarded, Flush's error returned);
anything else is marshalled at depth 0 and then flushed. -/
def Encode (f : Formatter) (j : GoValue) (w : Writer) : Writer × RErr :=
  match j with
  | .str s =>
    let r := wWrite w s
    (r.w, if flushBuf r.w then .werr else .ok)
  | v =>
    let r := marshalValue f v w 0
    match r.e with
    | .ok => (r.w, if flushBuf r.w then .werr else .ok)
    | e => (r.w, e)


mutual
/-- Pure mirror of marshalValue on a never-failing sink: the byte text a
value renders to, with none for a run that panics (a nil/invalid value
reached, or a nil KeyColor).  These definitions make the emission order
and indentation of the renderer explicit; the master lemmas below prove
the marshal functions equal to them on every non-failing sink. -/
def pureValue (f : Formatter) (v : GoValue) (depth : Nat) : Option (List Nat) :=
  match v with
  | .ptr .null => none
  | .ptr (.val u) => pureDispatch f u depth
  | .map l =>
    if entriesEmpty l then some (sprintColor f f.BackColor (gs "\x7b\x7d"))
    else
      (pureEntries f l depth).bind (fun body =>
        some (sprintColor f f.BackColor [123] ++ objSepBytes f ++ body ++
          indentBytes f depth ++ sprintColor f f.BackColor [125]))
  | .slice l =>
    if listEmpty l then some (sprintColor f f.BackColor (gs "[]"))
    else
      (pureItems f l depth).bind (fun body =>
        some (sprintColor f f.BackColor [91] ++ objSepBytes f ++ body ++
          indentBytes f depth ++ sprintColor f f.BackColor [93]))
  | .str s => some (sprintColor f f.StringColor (truncText f (escText f s)))
  | .int i => some (sprintColor f f.NumberColor (formatInt i))
  | .bool b => some (sprintColor f f.BoolColor (gs (if b then "true" else "false")))
  | .nilV => none
  | .struct l =>
    if entriesEmpty l then some (sprintColor f f.BackColor (gs "\x7b\x7d"))
    else
      (pureEntries f l depth).bind (fun body =>
        some (sprintColor f f.BackColor [123] ++ objSepBytes f ++ body ++
          indentBytes f depth ++ sprintColor f f.BackColor [125]))
  | .uint _ => some []

/-- Pure mirror of marshalDispatch (the switch after the pointer unwrap):
identical to pureValue except that a remaining pointer renders nothing. -/
def pureDispatch (f : Formatter) (v : GoValue) (depth : Nat) : Option (List Nat) :=
  match v with
  | .ptr _ => some []
  | .map l =>
    if entriesEmpty l then some (sprintColor f f.BackColor (gs "\x7b\x7d"))
    else
      (pureEntries f l depth).bind (fun body =>
        some (sprintColor f f.BackColor [123] ++ objSepBytes f ++ body ++
          indentBytes f depth ++ sprintColor f f.BackColor [125]))
  | .slice l =>
    if listEmpty l then some (sprintColor f f.BackColor (gs "[]"))
    else
      (pureItems f l depth).bind (fun body =>
        some (sprintColor f f.BackColor [91] ++ objSepBytes f ++ body ++
          indentBytes f depth ++ sprintColor f f.BackColor [93]))
  | .str s => some (sprintColor f f.StringColor (truncText f (escText f s)))
  | .int i => some (sprintColor f f.NumberColor (formatInt i))
  | .bool b => some (sprintColor f f.BoolColor (gs (if b then "true" else "false")))
  | .nilV => none
  | .struct l =>
    if entriesEmpty l then some (sprintColor f f.BackColor (gs "\x7b\x7d"))
    else
      (pureEntries f l depth).bind (fun body =>
        some (sprintColor f f.BackColor [123] ++ objSepBytes f ++ body ++
          indentBytes f depth ++ sprintColor f f.BackColor [125]))
  | .uint _ => some []

/-- Text of the map/struct entry loop, one segment per entry, in entry-list
order: the keys appear exactly in the order of the entry list (map
iteration order / struct declaration order) - no sorting - and each key is
emitted as a double quote, the raw key bytes, a double quote, a colon and
a space, with no JSON escaping. -/
def pureEntries (f : Formatter) (l : GoEntries) (depth : Nat) : Option (List Nat) :=
  match l with
  | .nil => some []
  | .cons k v rest =>
    match f.KeyColor with
    | none => none
    | some kc =>
      (pureValue f v (depth + 1)).bind (fun o =>
      (pureEntries f rest depth).bind (fun orest =>
        some (indentBytes f (depth + 1) ++ kc ([34] ++ k ++ [34, 58, 32]) ++ o ++
          (if hasMoreE rest then sprintColor f f.BackColor [44] else []) ++
          objSepBytes f ++ orest)))

/-- Text of the array element loop, one segment per element, in element
order: each element is preceded by indentation at depth (not depth+1)
while the element itself renders at depth+1. -/
def pureItems (f : Formatter) (l : GoList) (depth : Nat) : Option (List Nat) :=
  match l with
  | .nil => some []
  | .cons v rest =>
    (pureValue f v (depth + 1)).bind (fun o =>
    (pureItems f rest depth).bind (fun orest =>
      some (indentBytes f depth ++ o ++
        (if hasMoreL rest then sprintColor f f.BackColor [44] else []) ++
        objSepBytes f ++ orest)))
end

/-- Pure mirror of marshalMap. -/
def pureObj (f : Formatter) (l : GoEntries) (depth : Nat) : Option (List Nat) :=
  pureValue f (.map l) depth

/-- Pure mirror of marshalArray. -/
def pureArr (f : Formatter) (l : GoList) (depth : Nat) : Option (List Nat) :=
  pureValue f (.slice l) depth

/-- The identity style handle: a legitimate opaque styler that adds no
control sequences. -/
def idH : List Nat → List Nat := fun s => s

/-- A red ANSI style handle (ESC [ 3 1 m ... ESC [ 0 m). -/
def redH : List Nat → List Nat := fun s => [27, 91, 51, 49, 109] ++ s ++ [27, 91, 48, 109]

/-- A formatter with color disabled, identity handles, compact output. -/
def f0 : Formatter := ⟨some idH, some idH, some idH, some idH, some idH, some idH, 0, 0, true, false⟩

/-- f0 with a red key handle instead of the identity one. -/
def fRed : Formatter := { f0 with KeyColor := some redH }

/-- f0 with indent width 1. -/
def fInd1 : Formatter := { f0 with Indent := 1 }

/-- f0 with raw strings on and truncation threshold 3. -/
def fRaw3 : Formatter := { f0 with RawStrings := true, StringMaxLength := 3 }

/-- A fresh, never-failing sink. -/
def w0 : Writer := ⟨[], 0, none, false⟩

/-- Entries of the map with iteration order b before a. -/
def entBA : GoEntries := .cons (gs "b") (.int 1) (.cons (gs "a") (.int 2) .nil)

/-- The same two entries in the opposite iteration order. -/
def entAB : GoEntries := .cons (gs "a") (.int 2) (.cons (gs "b") (.int 1) .nil)

/-- A one-entry map. -/
def entA1 : GoEntries := .cons (gs "a") (.int 1) .nil

/-- Value kinds with no case in the dispatcher switch (colorjson.go:345-366):
unsigned integers and pointers (a pointer surviving the single unwrap). -/
def unrecognizedKind : GoValue → Bool
  | .uint _ => true
  | .ptr _ => true
  | _ => false

/-- Whether a value's unwrapped runtime shape matches no switch case; the
invalid value is excluded - it has a (crashing) case. -/
def unrecognized : GoValue → Bool
  | .ptr .null => false
  | .ptr (.val u) => unrecognizedKind u
  | u => unrecognizedKind u

/-- A write against a non-failing, non-errored sink appends its bytes. -/
theorem wWrite_ok (out : List Nat) (c : Nat) (s : List Nat) :
    wWrite ⟨out, c, none, false⟩ s = ⟨s.length, ⟨out ++ s, c + 1, none, false⟩, .ok⟩ := by
  simp [wWrite]

/-- writeObjSep on a non-failing sink. -/
theorem writeObjSep_ok (f : Formatter) (out : List Nat) (c : Nat) :
    writeObjSep f ⟨out, c, none, false⟩ =
      ⟨(objSepBytes f).length, ⟨out ++ objSepBytes f, c + 1, none, false⟩, .ok⟩ := by
  simp [writeObjSep, wWrite_ok]

/-- writeIndent on a non-failing sink. -/
theorem writeIndent_ok (f : Formatter) (out : List Nat) (c d : Nat) :
    writeIndent f ⟨out, c, none, false⟩ d =
      ⟨(indentBytes f d).length, ⟨out ++ indentBytes f d, c + 1, none, false⟩, .ok⟩ := by
  simp [writeIndent, wWrite_ok]

/-- step on a clean result continues with the count and sink. -/
theorem step_ok (n : Nat) (w : Writer) (en : Nat) (k : Nat → Writer → MRes) :
    step ⟨n, w, .ok⟩ en k = k n w := rfl

/-- stepV on a clean result continues with the count and sink. -/
theorem stepV_ok (n : Nat) (w : Writer) (en : Nat) (k : Nat → Writer → MRes) :
    stepV ⟨n, w, .ok⟩ en k = k n w := rfl

mutual
/-- Master lemma for marshalValue: on a non-failing, non-errored sink, a
successful pure render (pureValue = some o) means marshalValue appends
exactly o to whatever was already written, advances the call counter by a
fixed amount, returns a fixed byte count, and reports no error - at every
start state. -/
theorem masterV (f : Formatter) (v : GoValue) :
    ∀ (d : Nat) (o : List Nat), pureValue f v d = some o →
      ∃ L k, ∀ (out : List Nat) (c : Nat),
        marshalValue f v ⟨out, c, none, false⟩ d =
          ⟨L, ⟨out ++ o, c + k, none, false⟩, .ok⟩ := by
  intro d o ho
  cases v with
  | ptr p =>
    cases p with
    | null => simp [pureValue] at ho
    | val u => exact masterD f u d o ho
  | map l =>
    cases hl : entriesEmpty l with
    | true =>
      simp [pureValue, pureDispatch, hl] at ho
      subst ho
      refine ⟨(sprintColor f f.BackColor (gs "\x7b\x7d")).length, 1, fun out c => ?_⟩
      rw [marshalValue]
      simp [hl, wWrite_ok]
    | false =>
      rcases hb : pureEntries f l d with _ | body
      · simp [pureValue, pureDispatch, hl, hb] at ho
      · simp [pureValue, pureDispatch, hl, hb] at ho
        subst ho
        obtain ⟨L3, k3, h3⟩ := masterE f l d body hb
        refine ⟨(sprintColor f f.BackColor [123]).length + (objSepBytes f).length + L3,
          k3 + 2, fun out c => ?_⟩
        rw [marshalValue]
        simp only [hl, Bool.false_eq_true, if_false, wWrite_ok, step_ok]
        rw [writeObjSep_ok]
        simp only [step_ok, h3]
        simp [List.append_assoc, MRes.mk.injEq, Writer.mk.injEq]
        omega
  | struct l =>
    cases hl : entriesEmpty l with
    | true =>
      simp [pureValue, pureDispatch, hl] at ho
      subst ho
      refine ⟨(sprintColor f f.BackColor (gs "\x7b\x7d")).length, 1, fun out c => ?_⟩
      rw [marshalValue]
      simp [hl, wWrite_ok]
    | false =>
      rcases hb : pureEntries f l d with _ | body
      · simp [pureValue, pureDispatch, hl, hb] at ho
      · simp [pureValue, pureDispatch, hl, hb] at ho
        subst ho
        obtain ⟨L3, k3, h3⟩ := masterE f l d body hb
        refine ⟨(sprintColor f f.BackColor [123]).length + (objSepBytes f).length + L3,
          k3 + 2, fun out c => ?_⟩
        rw [marshalValue]
        simp only [hl, Bool.false_eq_true, if_false, wWrite_ok, step_ok]
        rw [writeObjSep_ok]
        simp only [step_ok, h3]
        simp [List.append_assoc, MRes.mk.injEq, Writer.mk.injEq]
        omega
  | slice l =>
    cases hl : listEmpty l with
    | true =>
      simp [pureValue, pureDispatch, hl] at ho
      subst ho
      refine ⟨(sprintColor f f.BackColor (gs "[]")).length, 1, fun out c => ?_⟩
      rw [marshalValue]
      simp [hl, wWrite_ok]
    | false =>
      rcases hb : pureItems f l d with _ | body
      · simp [pureValue, pureDispatch, hl, hb] at ho
      · simp [pureValue, pureDispatch, hl, hb] at ho
        subst ho
        obtain ⟨L3, k3, h3⟩ := masterA f l d body hb
        refine ⟨(sprintColor f f.BackColor [91]).length + (objSepBytes f).length + L3,
          k3 + 2, fun out c => ?_⟩
        rw [marshalValue]
        simp only [hl, Bool.false_eq_true, if_false, wWrite_ok, step_ok]
        rw [writeObjSep_ok]
        simp only [step_ok, h3]
        simp [List.append_assoc, MRes.mk.injEq, Writer.mk.injEq]
        omega
  | str s =>
    simp [pureValue, pureDispatch] at ho
    subst ho
    refine ⟨(sprintColor f f.StringColor (truncText f (escText f s))).length, 1,
      fun out c => ?_⟩
    rw [marshalValue]
    simp [marshalString, wWrite_ok]
  | int i =>
    simp [pureValue, pureDispatch] at ho
    subst ho
    refine ⟨(sprintColor f f.NumberColor (formatInt i)).length, 1, fun out c => ?_⟩
    rw [marshalValue]
    simp [wWrite_ok]
  | bool b =>
    simp [pureValue, pureDispatch] at ho
    subst ho
    refine ⟨(sprintColor f f.BoolColor (gs (if b then "true" else "false"))).length, 1,
      fun out c => ?_⟩
    rw [marshalValue]
    simp [wWrite_ok]
  | nilV => simp [pureValue, pureDispatch] at ho
  | uint n =>
    simp [pureValue, pureDispatch] at ho
    refine ⟨0, 0, fun out c => ?_⟩
    rw [marshalValue]
    simp [← ho]
termination_by sizeOf v

/-- Master lemma for the dispatcher switch after the pointer unwrap: the
cases coincide with masterV except that a remaining pointer appends
nothing. -/
theorem masterD (f : Formatter) (v : GoValue) :
    ∀ (d : Nat) (o : List Nat), pureDispatch f v d = some o →
      ∃ L k, ∀ (out : List Nat) (c : Nat),
        marshalDispatch f v ⟨out, c, none, false⟩ d =
          ⟨L, ⟨out ++ o, c + k, none, false⟩, .ok⟩ := by
  intro d o ho
  cases v with
  | ptr p =>
    simp [pureDispatch] at ho
    refine ⟨0, 0, fun out c => ?_⟩
    rw [marshalDispatch]
    simp [← ho]
  | map l =>
    cases hl : entriesEmpty l with
    | true =>
      simp [pureValue, pureDispatch, hl] at ho
      subst ho
      refine ⟨(sprintColor f f.BackColor (gs "\x7b\x7d")).length, 1, fun out c => ?_⟩
      rw [marshalDispatch]
      simp [hl, wWrite_ok]
    | false =>
      rcases hb : pureEntries f l d with _ | body
      · simp [pureValue, pureDispatch, hl, hb] at ho
      · simp [pureValue, pureDispatch, hl, hb] at ho
        subst ho
        obtain ⟨L3, k3, h3⟩ := masterE f l d body hb
        refine ⟨(sprintColor f f.BackColor [123]).length + (objSepBytes f).length + L3,
          k3 + 2, fun out c => ?_⟩
        rw [marshalDispatch]
        simp only [hl, Bool.false_eq_true, if_false, wWrite_ok, step_ok]
        rw [writeObjSep_ok]
        simp only [step_ok, h3]
        simp [List.append_assoc, MRes.mk.injEq, Writer.mk.injEq]
        omega
  | struct l =>
    cases hl : entriesEmpty l with
    | true =>
      simp [pureValue, pureDispatch, hl] at ho
      subst ho
      refine ⟨(sprintColor f f.BackColor (gs "\x7b\x7d")).length, 1, fun out c => ?_⟩
      rw [marshalDispatch]
      simp [hl, wWrite_ok]
    | false =>
      rcases hb : pureEntries f l d with _ | body
      · simp [pureValue, pureDispatch, hl, hb] at ho
      · simp [pureValue, pureDispatch, hl, hb] at ho
        subst ho
        obtain ⟨L3, k3, h3⟩ := masterE f l d body hb
        refine ⟨(sprintColor f f.BackColor [123]).length + (objSepBytes f).length + L3,
          k3 + 2, fun out c => ?_⟩
        rw [marshalDispatch]
        simp only [hl, Bool.false_eq_true, if_false, wWrite_ok, step_ok]
        rw [writeObjSep_ok]
        simp only [step_ok, h3]
        simp [List.append_assoc, MRes.mk.injEq, Writer.mk.injEq]
        omega
  | slice l =>
    cases hl : listEmpty l with
    | true =>
      simp [pureValue, pureDispatch, hl] at ho
      subst ho
      refine ⟨(sprintColor f f.BackColor (gs "[]")).length, 1, fun out c => ?_⟩
      rw [marshalDispatch]
      simp [hl, wWrite_ok]
    | false =>
      rcases hb : pureItems f l d with _ | body
      · simp [pureValue, pureDispatch, hl, hb] at ho
      · simp [pureValue, pureDispatch, hl, hb] at ho
        subst ho
        obtain ⟨L3, k3, h3⟩ := masterA f l d body hb
        refine ⟨(sprintColor f f.BackColor [91]).length + (objSepBytes f).length + L3,
          k3 + 2, fun out c => ?_⟩
        rw [marshalDispatch]
        simp only [hl, Bool.false_eq_true, if_false, wWrite_ok, step_ok]
        rw [writeObjSep_ok]
        simp only [step_ok, h3]
        simp [List.append_assoc, MRes.mk.injEq, Writer.mk.injEq]
        omega
  | str s =>
    simp [pureValue, pureDispatch] at ho
    subst ho
    refine ⟨(sprintColor f f.StringColor (truncText f (escText f s))).length, 1,
      fun out c => ?_⟩
    rw [marshalDispatch]
    simp [marshalString, wWrite_ok]
  | int i =>
    simp [pureValue, pureDispatch] at ho
    subst ho
    refine ⟨(sprintColor f f.NumberColor (formatInt i)).length, 1, fun out c => ?_⟩
    rw [marshalDispatch]
    simp [wWrite_ok]
  | bool b =>
    simp [pureValue, pureDispatch] at ho
    subst ho
    refine ⟨(sprintColor f f.BoolColor (gs (if b then "true" else "false"))).length, 1,
      fun out c => ?_⟩
    rw [marshalDispatch]
    simp [wWrite_ok]
  | nilV => simp [pureValue, pureDispatch] at ho
  | uint n =>
    simp [pureValue, pureDispatch] at ho
    refine ⟨0, 0, fun out c => ?_⟩
    rw [marshalDispatch]
    simp [← ho]
termination_by sizeOf v

/-- Master lemma for the map/struct entry loop: a successful pure loop
body means objLoop appends the body followed by the closing indentation
and brace, adding the appended byte count to the running count wr. -/
theorem masterE (f : Formatter) (l : GoEntries) :
    ∀ (d : Nat) (body : List Nat), pureEntries f l d = some body →
      ∃ L k, ∀ (out : List Nat) (c wr : Nat),
        objLoop f l ⟨out, c, none, false⟩ d wr =
          ⟨wr + L,
            ⟨out ++ body ++ indentBytes f d ++ sprintColor f f.BackColor [125],
              c + k, none, false⟩, .ok⟩ := by
  intro d body ho
  cases l with
  | nil =>
    simp [pureEntries] at ho
    subst ho
    refine ⟨(indentBytes f d).length + (sprintColor f f.BackColor [125]).length, 2,
      fun out c wr => ?_⟩
    rw [objLoop, writeIndent_ok]
    simp only [step_ok, wWrite_ok]
    simp [List.append_assoc]
    omega
  | cons k1 v1 rest =>
    rcases hk : f.KeyColor with _ | kc
    · simp [pureEntries, hk] at ho
    · rcases hov : pureValue f v1 (d + 1) with _ | o1
      · simp [pureEntries, hk, hov] at ho
      · rcases hrest : pureEntries f rest d with _ | orest
        · simp [pureEntries, hk, hov, hrest] at ho
        · simp only [pureEntries, hk, hov, hrest, Option.some_bind,
            Option.some.injEq] at ho
          subst ho
          obtain ⟨Lv, kv, hV⟩ := masterV f v1 (d + 1) o1 hov
          obtain ⟨Le, ke, hE⟩ := masterE f rest d orest hrest
          cases hm : hasMoreE rest with
          | false =>
            refine ⟨(indentBytes f (d + 1)).length +
              (kc ([34] ++ k1 ++ [34, 58, 32])).length + Lv + (objSepBytes f).length + Le,
              kv + ke + 3, fun out c wr => ?_⟩
            rw [objLoop, writeIndent_ok]
            simp only [step_ok, hk]
            rw [wWrite_ok]
            simp only [step_ok, hV, stepV_ok, hm, Bool.false_eq_true, if_false]
            rw [writeObjSep_ok]
            simp only [step_ok, hE]
            simp [hm, List.append_assoc, MRes.mk.injEq, Writer.mk.injEq]
            omega
          | true =>
            refine ⟨(indentBytes f (d + 1)).length +
              (kc ([34] ++ k1 ++ [34, 58, 32])).length + Lv +
              (sprintColor f f.BackColor [44]).length + (objSepBytes f).length + Le,
              kv + ke + 4, fun out c wr => ?_⟩
            rw [objLoop, writeIndent_ok]
            simp only [step_ok, hk]
            rw [wWrite_ok]
            simp only [step_ok, hV, stepV_ok, hm, if_true, wWrite_ok]
            rw [writeObjSep_ok]
            simp only [step_ok, hE]
            simp [hm, List.append_assoc, MRes.mk.injEq, Writer.mk.injEq]
            omega
termination_by sizeOf l

/-- Master lemma for the array element loop: a successful pure loop body
means arrLoop appends the body followed by the closing indentation and
bracket, adding the appended byte count to the running count wr. -/
theorem masterA (f : Formatter) (l : GoList) :
    ∀ (d : Nat) (body : List Nat), pureItems f l d = some body →
      ∃ L k, ∀ (out : List Nat) (c wr : Nat),
        arrLoop f l ⟨out, c, none, false⟩ d wr =
          ⟨wr + L,
            ⟨out ++ body ++ indentBytes f d ++ sprintColor f f.BackColor [93],
              c + k, none, false⟩, .ok⟩ := by
  intro d body ho
  cases l with
  | nil =>
    simp [pureItems] at ho
    subst ho
    refine ⟨(indentBytes f d).length + (sprintColor f f.BackColor [93]).length, 2,
      fun out c wr => ?_⟩
    rw [arrLoop, writeIndent_ok]
    simp only [step_ok, wWrite_ok]
    simp [List.append_assoc]
    omega
  | cons v1 rest =>
    rcases hov : pureValue f v1 (d + 1) with _ | o1
    · simp [pureItems, hov] at ho
    · rcases hrest : pureItems f rest d with _ | orest
      · simp [pureItems, hov, hrest] at ho
      · simp only [pureItems, hov, hrest, Option.some_bind, Option.some.injEq] at ho
        subst ho
        obtain ⟨Lv, kv, hV⟩ := masterV f v1 (d + 1) o1 hov
        obtain ⟨Le, ke, hE⟩ := masterA f rest d orest hrest
        cases hm : hasMoreL rest with
        | false =>
          refine ⟨(indentBytes f d).length + Lv + (objSepBytes f).length + Le,
            kv + ke + 2, fun out c wr => ?_⟩
          rw [arrLoop, writeIndent_ok]
          simp only [step_ok, hV, stepV_ok, hm, Bool.false_eq_true, if_false]
          rw [writeObjSep_ok]
          simp only [step_ok, hE]
          simp [hm, List.append_assoc, MRes.mk.injEq, Writer.mk.injEq]
          omega
        | true =>
          refine ⟨(indentBytes f d).length + Lv +
            (sprintColor f f.BackColor [44]).length + (objSepBytes f).length + Le,
            kv + ke + 3, fun out c wr => ?_⟩
          rw [arrLoop, writeIndent_ok]
          simp only [step_ok, hV, stepV_ok, hm, if_true, wWrite_ok]
          rw [writeObjSep_ok]
          simp only [step_ok, hE]
          simp [hm, List.append_assoc, MRes.mk.injEq, Writer.mk.injEq]
          omega
termination_by sizeOf l
end

/-- C2: the claim says rendering a null (invalid unwrapped value: a JSON
null in a container, a nil pointer, or nil at top level) writes the
literal null and returns no error.  The code instead panics:
reflect.Value.Type() at colorjson.go:345 panics on the zero Value, so the
reflect.Invalid case at line 362 that would write null is unreachable.
This theorem evaluates the model at the failing inputs: nothing is
written, no clean return happens, the run crashes. -/
theorem c2_null_panics :
    (∀ (f : Formatter) (w : Writer) (d : Nat),
      marshalValue f .nilV w d = ⟨0, w, .crash⟩) ∧
    (∀ (f : Formatter) (w : Writer) (d : Nat),
      marshalValue f (.ptr .null) w d = ⟨0, w, .crash⟩) ∧
    (∀ (f : Formatter) (w : Writer), Encode f .nilV w = (w, .crash)) :=
  ⟨fun _ _ _ => rfl, fun _ _ _ => rfl, fun _ _ => rfl⟩

/-- C4: the claim says that with color disabled, all per-category style
handles - including the key style - are no-ops, so two disabled-color
configurations differing only in handles render byte-identical output.
The code writes keys through f.KeyColor.Sprintf directly
(colorjson.go:218/139), bypassing the DisabledColor check of sprintColor
(the sprintfColor helper at 62-67 that performs the check is unused), so
the key handle is still applied: two formatters with color disabled that
differ only in the key handle produce different bytes on the same map. -/
theorem c4_key_style_applied_when_disabled :
    f0.DisabledColor = true ∧ fRed.DisabledColor = true ∧
    fRed = { f0 with KeyColor := some redH } ∧
    (marshalMap f0 entA1 w0 0).w.out ≠ (marshalMap fRed entA1 w0 0).w.out := by
  refine ⟨rfl, rfl, rfl, ?_⟩
  decide

/-- C5: the claim says a sink write failure anywhere in the traversal is
returned with a byte count equal to the bytes successfully written before
the failure.  At one failure position - the object-separator write right
after the opening brace - marshalMap and marshalStruct return n, err
(colorjson.go:203-206 and 122-125), the failed write's own count (0),
instead of the accumulated wr: here the sink fails at write call 1, one
byte (the brace) has been written, yet the returned count is 0. -/
theorem c5_count_dropped_at_separator :
    marshalMap f0 entA1 ⟨[], 0, some 1, false⟩ 0 =
      ⟨0, ⟨[123], 2, some 1, true⟩, .werr⟩ ∧
    marshalStruct f0 entA1 ⟨[], 0, some 1, false⟩ 0 =
      ⟨0, ⟨[123], 2, some 1, true⟩, .werr⟩ ∧
    ([123] : List Nat).length = 1 := by
  refine ⟨?_, ?_, rfl⟩ <;> decide

/-- C8: every value whose unwrapped runtime shape matches no dispatcher
case (unsigned integers, and a pointer that survives the single unwrap)
is a silent no-op: nothing is written to the sink, the returned count is
0 and no error is reported, for every formatter, sink state and depth. -/
theorem c8_unrecognized_silent_noop :
    ∀ (f : Formatter) (w : Writer) (d : Nat) (v : GoValue),
      unrecognized v = true → marshalValue f v w d = ⟨0, w, .ok⟩ := by
  intro f w d v h
  cases v with
  | ptr p =>
    cases p with
    | null => simp [unrecognized] at h
    | val u =>
      cases u <;> simp [unrecognized, unrecognizedKind] at h <;> rfl
  | uint n => rfl
  | _ => simp [unrecognized, unrecognizedKind] at h

/-- C8 witness: a concrete unsigned integer, skipped silently. -/
theorem c8_unrecognized_silent_noop_witness :
    unrecognized (.uint 7) = true ∧ marshalValue f0 (.uint 7) w0 3 = ⟨0, w0, .ok⟩ :=
  ⟨by decide, c8_unrecognized_silent_noop f0 w0 3 (.uint 7) (by decide)⟩

/-- C9: a top-level string passed to Encode is written to the sink
verbatim - no quoting, escaping, styling or truncation, whatever the
formatter configuration - and the only error this path can return is the
sink's write error (never a panic outcome). -/
theorem c9_string_passthrough :
    (∀ (f : Formatter) (s out : List Nat) (c : Nat),
      Encode f (.str s) ⟨out, c, none, false⟩ = (⟨out ++ s, c + 1, none, false⟩, .ok)) ∧
    (∀ (f : Formatter) (s : List Nat) (w : Writer), (Encode f (.str s) w).2 ≠ .crash) := by
  constructor
  · intro f s out c
    simp [Encode, wWrite_ok, flushBuf]
  · intro f s w
    rw [Encode]
    cases h : flushBuf (wWrite w s).w <;> simp [h]

/-- C10: unsigned integer kinds appear in no case of the dispatcher's
switch (colorjson.go:352 lists only the float and signed-int kinds), so a
uint element renders nothing and reports no error wherever it appears,
while a signed integer of the same numeric value writes its decimal text
through the number style. -/
theorem c10_uint_unhandled :
    (∀ (f : Formatter) (w : Writer) (d n : Nat),
      marshalValue f (.uint n) w d = ⟨0, w, .ok⟩) ∧
    (∀ (f : Formatter) (d n : Nat) (out : List Nat) (c : Nat),
      marshalValue f (.int (Int.ofNat n)) ⟨out, c, none, false⟩ d =
        ⟨(sprintColor f f.NumberColor (formatInt (Int.ofNat n))).length,
          ⟨out ++ sprintColor f f.NumberColor (formatInt (Int.ofNat n)),
            c + 1, none, false⟩, .ok⟩) := by
  constructor
  · intro f w d n
    rfl
  · intro f d n out c
    rw [marshalValue]
    simp [wWrite_ok]

/-- C1 counterexample: the claim says a dynamic map renders its keys in
ascending lexicographic order regardless of iteration order.  The code
iterates reflect MapKeys as-is (colorjson.go:210) with no sort: the map
with entries b:1, a:2 in that iteration order renders b first, the same
entries in the opposite order render a first, and the two outputs differ. -/
theorem c1_counterexample :
    (marshalMap f0 entBA w0 0).w.out = gs "\x7b \"b\": 1, \"a\": 2 \x7d" ∧
    (marshalMap f0 entAB w0 0).w.out = gs "\x7b \"a\": 2, \"b\": 1 \x7d" ∧
    gs "\x7b \"b\": 1, \"a\": 2 \x7d" ≠ gs "\x7b \"a\": 2, \"b\": 1 \x7d" := by
  refine ⟨?_, ?_, ?_⟩ <;> decide

/-- C3 counterexample: the claim says each array element line is preceded
by indent-width × (depth+1) spaces.  marshalArray indents elements at
depth (colorjson.go:289): with indent width 1 at depth 0 the element gets
no indentation at all, where the claim demands one space. -/
theorem c3_counterexample :
    (marshalArray fInd1 (.cons (.int 1) .nil) w0 0).w.out = gs "[\n1\n]" ∧
    gs "[\n1\n]" ≠ gs "[\n 1\n]" := by
  refine ⟨?_, ?_⟩ <;> decide

/-- C6 counterexample: the claim says every key is emitted as a valid
JSON string literal, correctly escaped.  The key is formatted with
Sprintf("\"%s\": ", key) (colorjson.go:218/139) with no escaping: a key
containing a double quote is emitted raw, which differs from the
correctly JSON-escaped key text. -/
theorem c6_counterexample :
    (marshalMap f0 (.cons (gs "a\"b") (.int 1) .nil) w0 0).w.out =
      gs "\x7b \"a\"b\": 1 \x7d" ∧
    gs "\x7b \"a\"b\": 1 \x7d" ≠
      gs "\x7b " ++ jsonQuote (gs "a\"b") ++ gs ": 1 \x7d" := by
  refine ⟨?_, ?_⟩ <;> decide

/-- C1 amended: a dynamic map with at least two entries renders its keys
in the map's iteration order (no sorting), and a struct renders its
fields in declaration order: for any two leading entries k1, k2 followed
by any further entries, the k1 segment is emitted before the k2 segment,
which precedes the remaining entries' text, for maps and structs alike
(the entry list is the iteration order for maps and the declaration order
for structs). -/
theorem c1_entry_order :
    ∀ (f : Formatter) (kc : List Nat → List Nat) (k1 k2 : List Nat) (v1 v2 : GoValue)
      (rest : GoEntries) (d : Nat) (o1 o2 orest : List Nat),
      f.KeyColor = some kc →
      pureValue f v1 (d + 1) = some o1 →
      pureValue f v2 (d + 1) = some o2 →
      pureEntries f rest d = some orest →
      ∃ L k, ∀ (out : List Nat) (c : Nat),
        marshalMap f (.cons k1 v1 (.cons k2 v2 rest)) ⟨out, c, none, false⟩ d =
          ⟨L, ⟨out ++ sprintColor f f.BackColor [123] ++ objSepBytes f ++
            indentBytes f (d + 1) ++ kc ([34] ++ k1 ++ [34, 58, 32]) ++ o1 ++
            sprintColor f f.BackColor [44] ++ objSepBytes f ++
            indentBytes f (d + 1) ++ kc ([34] ++ k2 ++ [34, 58, 32]) ++ o2 ++
            (if hasMoreE rest then sprintColor f f.BackColor [44] else []) ++
            objSepBytes f ++ orest ++
            indentBytes f d ++ sprintColor f f.BackColor [125],
            c + k, none, false⟩, .ok⟩ ∧
        marshalStruct f (.cons k1 v1 (.cons k2 v2 rest)) ⟨out, c, none, false⟩ d =
          ⟨L, ⟨out ++ sprintColor f f.BackColor [123] ++ objSepBytes f ++
            indentBytes f (d + 1) ++ kc ([34] ++ k1 ++ [34, 58, 32]) ++ o1 ++
            sprintColor f f.BackColor [44] ++ objSepBytes f ++
            indentBytes f (d + 1) ++ kc ([34] ++ k2 ++ [34, 58, 32]) ++ o2 ++
            (if hasMoreE rest then sprintColor f f.BackColor [44] else []) ++
            objSepBytes f ++ orest ++
            indentBytes f d ++ sprintColor f f.BackColor [125],
            c + k, none, false⟩, .ok⟩ := by
  intro f kc k1 k2 v1 v2 rest d o1 o2 orest hk h1 h2 h3
  rcases hpe : pureEntries f (.cons k1 v1 (.cons k2 v2 rest)) d with _ | body
  · simp [pureEntries, hk, h1, h2, h3] at hpe
  · obtain ⟨Le, ke, hE⟩ := masterE f (.cons k1 v1 (.cons k2 v2 rest)) d body hpe
    simp only [pureEntries, hk, h1, h2, h3, Option.some_bind, Option.some.injEq] at hpe
    subst hpe
    refine ⟨(sprintColor f f.BackColor [123]).length + (objSepBytes f).length + Le,
      ke + 2, fun out c => ⟨?_, ?_⟩⟩
    · rw [marshalMap, marshalValue]
      simp only [entriesEmpty, Bool.false_eq_true, if_false, wWrite_ok, step_ok]
      rw [writeObjSep_ok]
      simp only [step_ok, hE]
      simp [hasMoreE, List.append_assoc, MRes.mk.injEq, Writer.mk.injEq]
      omega
    · rw [marshalStruct, marshalValue]
      simp only [entriesEmpty, Bool.false_eq_true, if_false, wWrite_ok, step_ok]
      rw [writeObjSep_ok]
      simp only [step_ok, hE]
      simp [hasMoreE, List.append_assoc, MRes.mk.injEq, Writer.mk.injEq]
      omega

/-- C1 witness: the amended order theorem applied to the concrete
two-entry map (iteration order b before a). -/
theorem c1_entry_order_witness :
    f0.KeyColor = some idH ∧ pureValue f0 (.int 1) 1 = some (gs "1") ∧
    pureValue f0 (.int 2) 1 = some (gs "2") ∧ pureEntries f0 .nil 0 = some [] ∧
    (∃ L k, ∀ (out : List Nat) (c : Nat),
      marshalMap f0 (.cons (gs "b") (.int 1) (.cons (gs "a") (.int 2) .nil))
          ⟨out, c, none, false⟩ 0 =
        ⟨L, ⟨out ++ sprintColor f0 f0.BackColor [123] ++ objSepBytes f0 ++
          indentBytes f0 1 ++ idH ([34] ++ gs "b" ++ [34, 58, 32]) ++ gs "1" ++
          sprintColor f0 f0.BackColor [44] ++ objSepBytes f0 ++
          indentBytes f0 1 ++ idH ([34] ++ gs "a" ++ [34, 58, 32]) ++ gs "2" ++
          (if hasMoreE .nil then sprintColor f0 f0.BackColor [44] else []) ++
          objSepBytes f0 ++ [] ++
          indentBytes f0 0 ++ sprintColor f0 f0.BackColor [125],
          c + k, none, false⟩, .ok⟩ ∧
      marshalStruct f0 (.cons (gs "b") (.int 1) (.cons (gs "a") (.int 2) .nil))
          ⟨out, c, none, false⟩ 0 =
        ⟨L, ⟨out ++ sprintColor f0 f0.BackColor [123] ++ objSepBytes f0 ++
          indentBytes f0 1 ++ idH ([34] ++ gs "b" ++ [34, 58, 32]) ++ gs "1" ++
          sprintColor f0 f0.BackColor [44] ++ objSepBytes f0 ++
          indentBytes f0 1 ++ idH ([34] ++ gs "a" ++ [34, 58, 32]) ++ gs "2" ++
          (if hasMoreE .nil then sprintColor f0 f0.BackColor [44] else []) ++
          objSepBytes f0 ++ [] ++
          indentBytes f0 0 ++ sprintColor f0 f0.BackColor [125],
          c + k, none, false⟩, .ok⟩) :=
  ⟨rfl, by decide, by decide, by decide,
    c1_entry_order f0 idH (gs "b") (gs "a") (.int 1) (.int 2) .nil 0
      (gs "1") (gs "2") [] rfl (by decide) (by decide) (by decide)⟩

/-- C3 amended: in a non-empty array, each element's line is preceded by
indentation of indent-width × depth spaces - the same level as the
closing bracket - not depth+1; the element itself renders at depth+1 and
the closing bracket is preceded by indent-width × depth spaces. -/
theorem c3_element_indent :
    ∀ (f : Formatter) (v : GoValue) (rest : GoList) (d : Nat) (ov otl : List Nat),
      pureValue f v (d + 1) = some ov →
      pureItems f rest d = some otl →
      ∃ L k, ∀ (out : List Nat) (c : Nat),
        marshalArray f (.cons v rest) ⟨out, c, none, false⟩ d =
          ⟨L, ⟨out ++ sprintColor f f.BackColor [91] ++ objSepBytes f ++
            indentBytes f d ++ ov ++
            (if hasMoreL rest then sprintColor f f.BackColor [44] else []) ++
            objSepBytes f ++ otl ++
            indentBytes f d ++ sprintColor f f.BackColor [93],
            c + k, none, false⟩, .ok⟩ := by
  intro f v rest d ov otl h1 h2
  rcases hpi : pureItems f (.cons v rest) d with _ | body
  · simp [pureItems, h1, h2] at hpi
  · obtain ⟨La, ka, hA⟩ := masterA f (.cons v rest) d body hpi
    simp only [pureItems, h1, h2, Option.some_bind, Option.some.injEq] at hpi
    subst hpi
    refine ⟨(sprintColor f f.BackColor [91]).length + (objSepBytes f).length + La,
      ka + 2, fun out c => ?_⟩
    rw [marshalArray, marshalValue]
    simp only [listEmpty, Bool.false_eq_true, if_false, wWrite_ok, step_ok]
    rw [writeObjSep_ok]
    simp only [step_ok, hA]
    simp [List.append_assoc, MRes.mk.injEq, Writer.mk.injEq]
    omega

/-- C3 witness: the amended indentation theorem applied to the concrete
one-element array at indent width 1 and depth 0. -/
theorem c3_element_indent_witness :
    pureValue fInd1 (.int 1) 1 = some (gs "1") ∧ pureItems fInd1 .nil 0 = some [] ∧
    (∃ L k, ∀ (out : List Nat) (c : Nat),
      marshalArray fInd1 (.cons (.int 1) .nil) ⟨out, c, none, false⟩ 0 =
        ⟨L, ⟨out ++ sprintColor fInd1 fInd1.BackColor [91] ++ objSepBytes fInd1 ++
          indentBytes fInd1 0 ++ gs "1" ++
          (if hasMoreL .nil then sprintColor fInd1 fInd1.BackColor [44] else []) ++
          objSepBytes fInd1 ++ [] ++
          indentBytes fInd1 0 ++ sprintColor fInd1 fInd1.BackColor [93],
          c + k, none, false⟩, .ok⟩) :=
  ⟨by decide, by decide,
    c3_element_indent fInd1 (.int 1) .nil 0 (gs "1") [] (by decide) (by decide)⟩

/-- C6 amended: every object or record key is emitted as a double quote,
the raw key bytes, a double quote, a colon and a space - with no JSON
escaping of the key - under the key handle. -/
theorem c6_raw_key :
    ∀ (f : Formatter) (kc : List Nat → List Nat) (k : List Nat) (v : GoValue)
      (d : Nat) (ov : List Nat),
      f.KeyColor = some kc →
      pureValue f v (d + 1) = some ov →
      ∃ L k2, ∀ (out : List Nat) (c : Nat),
        marshalMap f (.cons k v .nil) ⟨out, c, none, false⟩ d =
          ⟨L, ⟨out ++ sprintColor f f.BackColor [123] ++ objSepBytes f ++
            indentBytes f (d + 1) ++ kc ([34] ++ k ++ [34, 58, 32]) ++ ov ++
            objSepBytes f ++
            indentBytes f d ++ sprintColor f f.BackColor [125],
            c + k2, none, false⟩, .ok⟩ := by
  intro f kc k v d ov hk h1
  rcases hpe : pureEntries f (.cons k v .nil) d with _ | body
  · simp [pureEntries, hk, h1] at hpe
  · obtain ⟨Le, ke, hE⟩ := masterE f (.cons k v .nil) d body hpe
    simp only [pureEntries, hk, h1, Option.some_bind, Option.some.injEq] at hpe
    subst hpe
    refine ⟨(sprintColor f f.BackColor [123]).length + (objSepBytes f).length + Le,
      ke + 2, fun out c => ?_⟩
    rw [marshalMap, marshalValue]
    simp only [entriesEmpty, Bool.false_eq_true, if_false, wWrite_ok, step_ok]
    rw [writeObjSep_ok]
    simp only [step_ok, hE]
    simp [hasMoreE, List.append_assoc, MRes.mk.injEq, Writer.mk.injEq]
    omega

/-- C6 witness: the raw-key theorem applied to a key containing a double
quote, whose bytes are emitted verbatim between the added quotes. -/
theorem c6_raw_key_witness :
    f0.KeyColor = some idH ∧ pureValue f0 (.int 1) 1 = some (gs "1") ∧
    (∃ L k2, ∀ (out : List Nat) (c : Nat),
      marshalMap f0 (.cons (gs "a\"b") (.int 1) .nil) ⟨out, c, none, false⟩ 0 =
        ⟨L, ⟨out ++ sprintColor f0 f0.BackColor [123] ++ objSepBytes f0 ++
          indentBytes f0 1 ++ idH ([34] ++ gs "a\"b" ++ [34, 58, 32]) ++ gs "1" ++
          objSepBytes f0 ++
          indentBytes f0 0 ++ sprintColor f0 f0.BackColor [125],
          c + k2, none, false⟩, .ok⟩) :=
  ⟨rfl, by decide,
    c6_raw_key f0 idH (gs "a\"b") (.int 1) 0 (gs "1") rfl (by decide)⟩

/-- C7: marshalString applies truncation after JSON escaping (or to the
verbatim text in raw mode): with threshold 0 the escaped-or-raw text is
written in full; with a non-zero threshold, a text whose length reaches
the threshold (equality included) is cut to its first threshold bytes
with the ellipsis marker appended, and a shorter text is written
unchanged. -/
theorem c7_truncation (f : Formatter) (s out : List Nat) (c : Nat) :
    (f.StringMaxLength = 0 →
      marshalString f s ⟨out, c, none, false⟩ =
        ⟨(sprintColor f f.StringColor (escText f s)).length,
          ⟨out ++ sprintColor f f.StringColor (escText f s), c + 1, none, false⟩, .ok⟩) ∧
    (f.StringMaxLength ≠ 0 → f.StringMaxLength ≤ (escText f s).length →
      marshalString f s ⟨out, c, none, false⟩ =
        ⟨(sprintColor f f.StringColor
            ((escText f s).take f.StringMaxLength ++ gs "...")).length,
          ⟨out ++ sprintColor f f.StringColor
            ((escText f s).take f.StringMaxLength ++ gs "..."), c + 1, none, false⟩, .ok⟩) ∧
    (f.StringMaxLength ≠ 0 → (escText f s).length < f.StringMaxLength →
      marshalString f s ⟨out, c, none, false⟩ =
        ⟨(sprintColor f f.StringColor (escText f s)).length,
          ⟨out ++ sprintColor f f.StringColor (escText f s), c + 1, none, false⟩, .ok⟩) := by
  refine ⟨fun h0 => ?_, fun hpos hle => ?_, fun hpos hlt => ?_⟩
  · have hc : ¬(f.StringMaxLength ≠ 0 ∧ f.StringMaxLength ≤ (escText f s).length) := by
      simp [h0]
    rw [marshalString, truncText, if_neg hc, wWrite_ok]
  · have hc : f.StringMaxLength ≠ 0 ∧ f.StringMaxLength ≤ (escText f s).length :=
      ⟨hpos, hle⟩
    rw [marshalString, truncText, if_pos hc, wWrite_ok]
  · have hc : ¬(f.StringMaxLength ≠ 0 ∧ f.StringMaxLength ≤ (escText f s).length) := by
      omega
    rw [marshalString, truncText, if_neg hc, wWrite_ok]

/-- C7 witness: raw strings, threshold 3, input abcdef (length 6, at or
above the threshold): the written text is abc followed by the ellipsis. -/
theorem c7_truncation_witness :
    fRaw3.StringMaxLength ≠ 0 ∧
    fRaw3.StringMaxLength ≤ (escText fRaw3 (gs "abcdef")).length ∧
    marshalString fRaw3 (gs "abcdef") ⟨[], 0, none, false⟩ =
      ⟨(sprintColor fRaw3 fRaw3.StringColor
          ((escText fRaw3 (gs "abcdef")).take fRaw3.StringMaxLength ++ gs "...")).length,
        ⟨[] ++ sprintColor fRaw3 fRaw3.StringColor
          ((escText fRaw3 (gs "abcdef")).take fRaw3.StringMaxLength ++ gs "..."),
          0 + 1, none, false⟩, .ok⟩ ∧
    sprintColor fRaw3 fRaw3.StringColor
        ((escText fRaw3 (gs "abcdef")).take fRaw3.StringMaxLength ++ gs "...") =
      gs "abc..." :=
  ⟨by decide, by decide,
    (c7_truncation fRaw3 (gs "abcdef") [] 0).2.1 (by decide) (by decide), by decide⟩

end ColorJson
